import Mathlib

/-!
Shallow embedding of the vehicle-detection backend: `backend/tracker.py`,
`backend/services/engine.py`, `backend/services/websocket.py` and the
counting/timeline code of `backend/main.py`.

Modelling conventions.  Python floats are modelled by `ℚ` (every quantity
appearing in the verified claims is exact); `math.sqrt` is modelled by
`Rat.sqrt`, which agrees with the real square root on perfect squares;
`math.atan2` and `math.degrees` are modelled over `ℝ`.  The Python dicts
keyed by track id / client id are modelled as association lists holding one
slot per key, and the Python set `seen_ids` as a `Finset ℤ`.  Exceptions are
modelled by `Except`.
-/

/-- One detection dict produced by `detect_vehicles` (detection.py):
`{class_name, confidence, bbox: [x1, y1, x2, y2], track_id}`; `track_id`
is absent (`None`) when the detector ran without tracking. -/
structure Detection where
  class_name : String
  confidence : ℚ
  bbox : List ℚ
  track_id : Option ℤ
deriving DecidableEq

/-! ## tracker.py -/

/-- A `Track` (tracker.py).  Trajectory samples are `(centroid, frame_number)`
pairs; the Python deque of maxlen 30 keeps the 30 most recent. -/
structure Track where
  track_id : ℤ
  class_name : String
  bbox : List ℚ
  centroid : ℚ × ℚ
  trajectory : List ((ℚ × ℚ) × ℕ)
  frames_tracked : ℕ
  speed_kmh : ℚ
  direction : String
  last_update_frame : ℕ
deriving DecidableEq

/-- The centroid of a bounding box `[x1, y1, x2, y2]`
(`Track._calculate_centroid`). -/
def calculateCentroid (bbox : List ℚ) : ℚ × ℚ :=
  ((bbox.getD 0 0 + bbox.getD 2 0) / 2, (bbox.getD 1 0 + bbox.getD 3 0) / 2)

/-- Appending to a deque of maxlen `n`: append, then drop from the front
whatever exceeds `n` entries. -/
def dequeAppend (n : ℕ) (l : List α) (x : α) : List α :=
  let l2 := l ++ [x]
  l2.drop (l2.length - n)

/-- Constructor `Track.__init__`. -/
def Track.init (track_id : ℤ) (class_name : String) (bbox : List ℚ)
    (frame_number : ℕ) : Track :=
  let c := calculateCentroid bbox
  { track_id := track_id, class_name := class_name, bbox := bbox, centroid := c,
    trajectory := [(c, frame_number)], frames_tracked := 1,
    speed_kmh := 0, direction := "Unknown", last_update_frame := frame_number }

/-- Method `Track.update`: refresh bbox/centroid, append the new trajectory
sample, bump `frames_tracked` and `last_update_frame`. -/
def Track.update (t : Track) (bbox : List ℚ) (frame_number : ℕ) : Track :=
  let c := calculateCentroid bbox
  { t with
    bbox := bbox
    centroid := c
    trajectory := dequeAppend 30 t.trajectory (c, frame_number)
    frames_tracked := t.frames_tracked + 1
    last_update_frame := frame_number }

/-- Two-argument arctangent `math.atan2`, modelled over `ℝ`. -/
noncomputable def atan2 (y x : ℝ) : ℝ :=
  if 0 < x then Real.arctan (y / x)
  else if x < 0 ∧ 0 ≤ y then Real.arctan (y / x) + Real.pi
  else if x < 0 ∧ y < 0 then Real.arctan (y / x) - Real.pi
  else if x = 0 ∧ 0 < y then Real.pi / 2
  else if x = 0 ∧ y < 0 then -(Real.pi / 2)
  else 0

/-- The eight Indonesian compass labels of `Track.calculate_direction`
(E, NE, N, NW, W, SW, S, SE). -/
def directions8 : List String :=
  ["Timur", "Timur Laut", "Utara", "Barat Laut", "Barat", "Barat Daya",
   "Selatan", "Tenggara"]

/-- Method `Track.calculate_direction` (tracker.py 44-73).  The angle
`math.degrees(math.atan2(-dy, dx))`, normalised into `[0, 360)`, is modelled
over `ℝ`; the Python `int()` truncation of `(angle + 22.5) / 45` agrees with
the floor because the argument is nonnegative after normalisation. -/
noncomputable def Track.calculate_direction (t : Track) : String :=
  if t.trajectory.length < 5 then "Unknown"
  else
    let start_pos := (t.trajectory.getD 0 ((0, 0), 0)).1
    let end_pos := (t.trajectory.getD (t.trajectory.length - 1) ((0, 0), 0)).1
    let dx : ℚ := end_pos.1 - start_pos.1
    let dy : ℚ := end_pos.2 - start_pos.2
    let flow := if 0 < dy then "MASUK" else "KELUAR"
    let angle : ℝ := atan2 (-(dy : ℝ)) (dx : ℝ) * 180 / Real.pi
    let angle' := if angle < 0 then angle + 360 else angle
    let index := (⌊(angle' + 22.5) / 45⌋).toNat % 8
    flow ++ " (" ++ directions8.getD index "" ++ ")"

/-- Python `round(x, 1)` modelled by rounding to the nearest tenth.  Mathlib's
`round` rounds halves up while Python rounds halves to even; the two differ
only at exact odd multiples of `1/20`, which do not arise in the verified
claims and cannot move a value out of a closed range with decimal-exact
endpoints. -/
def round1 (q : ℚ) : ℚ := (round (q * 10) : ℤ) / 10

/-- Method `Track.calculate_speed` (tracker.py 75-116).  `math.sqrt` is
modelled by `Rat.sqrt` (exact on perfect squares; the final clamp into
`[0, 200]` holds for any square-root model). -/
def Track.calculate_speed (t : Track) (fps pixels_per_meter : ℚ) : ℚ :=
  if t.trajectory.length < 5 ∨ fps ≤ 0 ∨ pixels_per_meter ≤ 0 then 0
  else
    let window_size := min 10 t.trajectory.length
    let s := t.trajectory.getD (t.trajectory.length - window_size) ((0, 0), 0)
    let e := t.trajectory.getD (t.trajectory.length - 1) ((0, 0), 0)
    let dx := e.1.1 - s.1.1
    let dy := e.1.2 - s.1.2
    let pixel_distance := Rat.sqrt (dx ^ 2 + dy ^ 2)
    let distance_meters := pixel_distance / pixels_per_meter
    let frames_elapsed : ℤ := (e.2 : ℤ) - (s.2 : ℤ)
    if frames_elapsed = 0 then 0
    else
      let time_seconds : ℚ := (frames_elapsed : ℚ) / fps
      let speed_ms := distance_meters / time_seconds
      let speed_kmh := speed_ms * 3.6
      round1 (max 0 (min 200 speed_kmh))

/-- The dict returned by `Track.to_dict`.  The Python key `"class"` is a
reserved word in Lean and is rendered `class_name`. -/
structure TrackDict where
  track_id : ℤ
  class_name : String
  bbox : List ℚ
  centroid : List ℚ
  speed_kmh : ℚ
  direction : String
  frames_tracked : ℕ
  trajectory : List (List ℚ)
deriving DecidableEq

/-- Method `Track.to_dict` (the trajectory is cut to its last 10 points). -/
def Track.to_dict (t : Track) : TrackDict :=
  { track_id := t.track_id, class_name := t.class_name, bbox := t.bbox,
    centroid := [t.centroid.1, t.centroid.2], speed_kmh := t.speed_kmh,
    direction := t.direction, frames_tracked := t.frames_tracked,
    trajectory := (t.trajectory.drop (t.trajectory.length - 10)).map
      fun p => [p.1.1, p.1.2] }

/-- Lookup `d[k]` in a Python dict modelled as an association list. -/
def dictFind (d : List (ℤ × α)) (k : ℤ) : Option α :=
  (d.find? fun p => p.1 == k).map fun p => p.2

/-- Assignment `d[k] = v`: a dict holds one slot per key, so replace the
entry with key `k` if present, else append a new entry. -/
def dictSet (d : List (ℤ × α)) (k : ℤ) (v : α) : List (ℤ × α) :=
  if d.any fun p => p.1 == k then d.map fun p => if p.1 == k then (k, v) else p
  else d ++ [(k, v)]

/-- The `VehicleTracker` state (tracker.py). -/
structure VehicleTracker where
  tracks : List (ℤ × Track)
  fps : ℚ
  pixels_per_meter : ℚ
  frame_number : ℕ
  max_age : ℕ

/-- Constructor `VehicleTracker.__init__` (defaults fps 25, ppm 50, and
`max_age` 30). -/
def VehicleTracker.init (fps : ℚ) (pixels_per_meter : ℚ) :
    VehicleTracker :=
  { tracks := [], fps := fps, pixels_per_meter := pixels_per_meter,
    frame_number := 0, max_age := 30 }

/-- One step of the first loop of `VehicleTracker.update`: update the
existing track or create a new one for a detection carrying a track id. -/
def applyDetStep (fn : ℕ) (acc : List (ℤ × Track)) (det : Detection) :
    List (ℤ × Track) :=
  match det.track_id with
  | none => acc
  | some tid =>
    match dictFind acc tid with
    | some tr => dictSet acc tid (tr.update det.bbox fn)
    | none => dictSet acc tid (Track.init tid det.class_name det.bbox fn)

/-- The first loop of `VehicleTracker.update` over the whole frame. -/
def applyDetections (fn : ℕ) (tracks : List (ℤ × Track))
    (detections : List Detection) : List (ℤ × Track) :=
  detections.foldl (applyDetStep fn) tracks

/-- The stale-track sweep of `VehicleTracker.update`: collecting `stale_ids`
and then deleting each one from a dict holding one slot per key removes
exactly the entries satisfying the staleness test. -/
def removeStale (fn maxAge : ℕ) (tracks : List (ℤ × Track)) :
    List (ℤ × Track) :=
  tracks.filter fun p => decide (¬ (fn - p.2.last_update_frame > maxAge))

/-- The two mutating assignments performed on a track seen this frame:
`track.direction = track.calculate_direction()` followed by
`track.speed_kmh = track.calculate_speed(...)`. -/
noncomputable def snapTrack (fps ppm : ℚ) (tr : Track) : Track :=
  let tr1 := { tr with direction := tr.calculate_direction }
  { tr1 with speed_kmh := tr1.calculate_speed fps ppm }

/-- One step of the final loop of `VehicleTracker.update`: refresh the
stored track and collect its `to_dict` snapshot. -/
noncomputable def collectStep (fps ppm : ℚ)
    (acc : List (ℤ × Track) × List TrackDict) (tid : ℤ) :
    List (ℤ × Track) × List TrackDict :=
  match dictFind acc.1 tid with
  | none => acc
  | some tr =>
    let tr2 := snapTrack fps ppm tr
    (dictSet acc.1 tid tr2, acc.2 ++ [tr2.to_dict])

/-- The final loop of `VehicleTracker.update`: for every track seen this
frame, recompute `direction` and `speed_kmh` (mutating the stored track) and
collect its `to_dict` snapshot. -/
noncomputable def collectSnapshots (fps ppm : ℚ) (ids : List ℤ)
    (tracks : List (ℤ × Track)) : List (ℤ × Track) × List TrackDict :=
  ids.foldl (collectStep fps ppm) (tracks, [])

/-- Method `VehicleTracker.update` (tracker.py 151-203).  The Python set
`current_track_ids` is modelled as the deduplicated list of this frame's
track ids. -/
noncomputable def VehicleTracker.update (st : VehicleTracker)
    (detections : List Detection) : VehicleTracker × List TrackDict :=
  let fn := st.frame_number + 1
  let current_track_ids := (detections.filterMap Detection.track_id).dedup
  let tracks1 := applyDetections fn st.tracks detections
  let tracks2 := removeStale fn st.max_age tracks1
  let r := collectSnapshots st.fps st.pixels_per_meter current_track_ids tracks2
  ({ st with tracks := r.1, frame_number := fn }, r.2)

/-! ## services/engine.py -/

/-- The `DetectionEngine.stats` dict.  `counts` is modelled as a total
function `String → ℕ`: the Python dict is always read through
`.get(cls, 0)`, so an absent key behaves as `0`. -/
structure EngineStats where
  counts : String → ℕ
  seen_ids : Finset ℤ
  timeline : List ℕ
  frame_count : ℕ
  tracking_enabled : Bool

/-- Helper `DetectionEngine._update_counts` on a single detection: a
detection whose track id has not been counted in this session marks the id
seen and bumps the count of the class it carries; anything else is a no-op. -/
def updateCountsDet (s : EngineStats) (det : Detection) : EngineStats :=
  match det.track_id with
  | none => s
  | some track_id =>
    if track_id ∈ s.seen_ids then s
    else
      { s with
        seen_ids := insert track_id s.seen_ids
        counts := Function.update s.counts det.class_name
          (s.counts det.class_name + 1) }

/-- Helper `DetectionEngine._update_counts` (engine.py 262-268). -/
def updateCounts (s : EngineStats) (detections : List Detection) : EngineStats :=
  detections.foldl updateCountsDet s

/-- A whole session of `_update_counts` calls, one per processed frame. -/
def updateCountsFrames (s : EngineStats) (frames : List (List Detection)) :
    EngineStats :=
  frames.foldl updateCounts s

/-- The non-tracking fallback of the loop's counting step (engine.py
178-180): one increment per detection in the frame. -/
def countsPerDetection (s : EngineStats) (detections : List Detection) :
    EngineStats :=
  detections.foldl (fun acc det =>
    { acc with
      counts := Function.update acc.counts det.class_name
        (acc.counts det.class_name + 1) }) s

/-- Helper `DetectionEngine._reset_stats` restricted to the stats fields:
`counts` zeroed (the Python dict holds the four vehicle classes at 0 and is
always read with default 0), `seen_ids` emptied, `timeline` and
`frame_count` cleared. -/
def resetStats (s : EngineStats) : EngineStats :=
  { s with
    counts := fun _ => 0
    seen_ids := ∅
    timeline := []
    frame_count := 0 }

/-- The timeline append of `_process_loop` step 4 (engine.py 184-186):
`append`, then `pop(0)` once the length exceeds 100. -/
def timelineAppend (timeline : List ℕ) (frame_vehicles : ℕ) : List ℕ :=
  let t := timeline ++ [frame_vehicles]
  if t.length > 100 then t.tail else t

/-- The timeline append of `video_websocket` (main.py 342-344): `append`,
then keep only the last 100 entries. -/
def timelineAppendWs (timeline : List ℕ) (frame_vehicles : ℕ) : List ℕ :=
  let t := timeline ++ [frame_vehicles]
  t.drop (t.length - 100)

/-- The metadata block attached to every `META_EVERY_N`-th broadcast payload
(claim-relevant fields). -/
structure PayloadMeta where
  counts : String → ℕ
  timeline : List ℕ
  frame_count : ℕ

/-- The broadcast payload built by each loop iteration (claim-relevant
fields; the performance block is omitted). -/
structure Payload where
  frame : String
  is_running : Bool
  seq : ℕ
  meta : Option PayloadMeta

/-- The `DetectionEngine` state (claim-relevant fields). -/
structure DetectionEngine where
  stats : EngineStats
  tracker : VehicleTracker
  is_running : Bool
  latest_broadcast_data : Option Payload
  broadcast_seq : ℕ

/-- Method `DetectionEngine.get_broadcast_data` (engine.py 253-258): read
the single-slot broadcast mailbox and clear it (`Consume it`). -/
def DetectionEngine.get_broadcast_data (e : DetectionEngine) :
    Option Payload × DetectionEngine :=
  (e.latest_broadcast_data, { e with latest_broadcast_data := none })

/-- One iteration of `DetectionEngine._process_loop` on a freshly grabbed
frame (steps 2-7 of the loop body; the DB auto-save, the resize and the FPS
bookkeeping touch no claim-relevant state).  `detect` models
`detect_vehicles` and `annotate` models `draw_boxes` plus JPEG encoding;
either may raise, modelled by `Except`.  The loop body has no exception
handler, so an error escapes carrying the engine state already mutated in
place at that point. -/
noncomputable def processIteration (detect : ℕ → Except String (List Detection))
    (annotate : ℕ → List Detection → List TrackDict → Except String String)
    (meta_every : ℕ) (e : DetectionEngine) (frame : ℕ) :
    Except (String × DetectionEngine) DetectionEngine :=
  let stats1 := { e.stats with frame_count := e.stats.frame_count + 1 }
  match detect frame with
  | .error err => .error (err, { e with stats := stats1 })
  | .ok detections =>
    let step3 :=
      if stats1.tracking_enabled then
        let r := e.tracker.update detections
        (r.1, r.2, updateCounts stats1 detections)
      else
        (e.tracker, ([] : List TrackDict), countsPerDetection stats1 detections)
    let stats2 := step3.2.2
    let stats3 := { stats2 with
      timeline := timelineAppend stats2.timeline detections.length }
    match annotate frame detections step3.2.1 with
    | .error err => .error (err, { e with stats := stats3, tracker := step3.1 })
    | .ok frame_b64 =>
      let seq := e.broadcast_seq + 1
      let payload : Payload :=
        { frame := frame_b64
          is_running := true
          seq := seq
          meta := if seq % meta_every == 0 then
              some { counts := stats3.counts
                     timeline := stats3.timeline
                     frame_count := stats3.frame_count }
            else none }
      .ok { e with
        stats := stats3
        tracker := step3.1
        broadcast_seq := seq
        latest_broadcast_data := some payload }

/-- The `_process_loop` of `DetectionEngine` (engine.py 120-251), driven by
the list of fresh frames the stream hands the loop.  There is no exception
handler around the body: an error in one iteration aborts the remaining
frames and escapes as a fatal loop error; nothing on that path writes
`is_running`. -/
noncomputable def processLoop (detect : ℕ → Except String (List Detection))
    (annotate : ℕ → List Detection → List TrackDict → Except String String)
    (meta_every : ℕ) :
    DetectionEngine → List ℕ → Except (String × DetectionEngine) DetectionEngine
  | e, [] => .ok e
  | e, f :: fs =>
    match processIteration detect annotate meta_every e f with
    | .error p => .error p
    | .ok e' => processLoop detect annotate meta_every e' fs

/-! ## services/websocket.py -/

/-- A `ClientState` (websocket.py): per-viewer connection state.  The
connection handle itself carries no claim-relevant state. -/
structure ClientState where
  ready : Bool
  last_send_time : ℕ
  frames_sent : ℕ
  frames_dropped : ℕ
deriving DecidableEq

/-- Method `ConnectionManager._send_with_backpressure` (websocket.py 72-83):
mark the viewer not-ready, attempt the send, count it and stamp the time on
success, swallow any delivery exception, and mark the viewer ready again in
the `finally` block.  `send` models `ws.send_json(message)` and `now` models
`time.time()`. -/
def sendWithBackpressure (send : Except String Unit) (now : ℕ)
    (c : ClientState) : ClientState :=
  let c1 := { c with ready := false }
  match send with
  | .ok _ => { c1 with
      frames_sent := c1.frames_sent + 1
      last_send_time := now
      ready := true }
  | .error _ => { c1 with ready := true }

/-- The per-viewer case split inside `ConnectionManager.broadcast`
(websocket.py 57-70): a ready viewer gets a send attempt; a not-ready viewer
is skipped for this tick and its dropped-counter incremented. -/
def broadcastClient (send : Except String Unit) (now : ℕ) (c : ClientState) :
    ClientState :=
  if c.ready then sendWithBackpressure send now c
  else { c with frames_dropped := c.frames_dropped + 1 }

/-- Method `ConnectionManager.broadcast` over the clients dict; `send cid`
is the delivery outcome for client `cid` this tick. -/
def ConnectionManager.broadcast (send : ℕ → Except String Unit) (now : ℕ)
    (clients : List (ℕ × ClientState)) : List (ℕ × ClientState) :=
  clients.map fun p => (p.1, broadcastClient (send p.1) now p.2)

/-- Well-formedness of the tracks dict as Python guarantees it: an
association list modelling a dict never holds two slots with the same key. -/
def keysNodup (d : List (ℤ × α)) : Prop := (d.map Prod.fst).Nodup

/-! ## Concrete states used when instantiating the theorems -/

/-- A freshly initialised stats record (the values `__init__` gives the
claim-relevant fields, with tracking enabled as by default). -/
def stats0 : EngineStats :=
  { counts := fun _ => 0, seen_ids := ∅, timeline := [], frame_count := 0,
    tracking_enabled := true }

/-- A car detection carrying track id 1. -/
def detCar1 : Detection :=
  { class_name := "car", confidence := 1/2, bbox := [0, 0, 2, 2],
    track_id := some 1 }

/-- A bus detection carrying track id 2. -/
def detBus2 : Detection :=
  { class_name := "bus", confidence := 1/2, bbox := [5, 5, 9, 9],
    track_id := some 2 }

/-- A later sighting of the car with track id 1. -/
def detCar1b : Detection :=
  { class_name := "car", confidence := 1/2, bbox := [0, 1, 2, 3],
    track_id := some 1 }

/-- The trajectory of the C3 scenario: centroids moving linearly from
`(100, 100)` to `(100, 50)` over 10 frames — eleven samples, one per frame,
at 5 pixels per frame straight up the image. -/
def traj9 : List ((ℚ × ℚ) × ℕ) :=
  [((100, 100), 1), ((100, 95), 2), ((100, 90), 3), ((100, 85), 4),
   ((100, 80), 5), ((100, 75), 6), ((100, 70), 7), ((100, 65), 8),
   ((100, 60), 9), ((100, 55), 10), ((100, 50), 11)]

/-- A track holding the C3 scenario trajectory. -/
def track9 : Track :=
  { track_id := 9, class_name := "car", bbox := [75, 25, 125, 75],
    centroid := (100, 50), trajectory := traj9, frames_tracked := 11,
    speed_kmh := 0, direction := "Unknown", last_update_frame := 11 }

/-- A tracker holding one track freshly updated at frame 50. -/
def stFresh : VehicleTracker :=
  { tracks := [(1, Track.init 1 "car" [0, 0, 10, 10] 50)], fps := 25,
    pixels_per_meter := 50, frame_number := 50, max_age := 30 }

/-- A tracker at frame 80 holding one track last updated at frame 40. -/
def stStale : VehicleTracker :=
  { tracks := [(2, Track.init 2 "bus" [0, 0, 10, 10] 40)], fps := 25,
    pixels_per_meter := 50, frame_number := 80, max_age := 30 }

/-- A detector stub that always raises: a broken model. -/
def detectFail : ℕ → Except String (List Detection) := fun _ => .error "model crashed"

/-- An annotator stub that always succeeds. -/
def annotateOk : ℕ → List Detection → List TrackDict → Except String String :=
  fun _ _ _ => .ok "jpeg"

/-- A running engine right after a source was opened on fresh stats. -/
def engine0 : DetectionEngine :=
  { stats := stats0, tracker := VehicleTracker.init 25 50, is_running := true,
    latest_broadcast_data := none, broadcast_seq := 0 }

/-- The state `engine0` leaves behind when the detector raises on the first
processed frame: only `frame_count` was already bumped in place. -/
def engine1 : DetectionEngine :=
  { engine0 with stats := { stats0 with frame_count := 1 } }

/-- Whether the processing loop ended through the fatal-error path. -/
def loopCrashed : Except (String × DetectionEngine) DetectionEngine → Bool
  | .error _ => true
  | .ok _ => false

/-- The `is_running` flag an observer reads on the engine once the loop has
ended, whichever way it ended. -/
def loopIsRunning : Except (String × DetectionEngine) DetectionEngine → Bool
  | .error p => p.2.is_running
  | .ok e => e.is_running

/-! ## Helper lemmas -/

/-- A timeline append never grows a timeline beyond the cap of 100. -/
theorem timelineAppend_length_le (tl : List ℕ) (x : ℕ) (h : tl.length ≤ 100) :
    (timelineAppend tl x).length ≤ 100 := by
  have he : timelineAppend tl x =
      if (tl ++ [x]).length > 100 then (tl ++ [x]).tail else tl ++ [x] := rfl
  by_cases hc : (tl ++ [x]).length > 100
  · rw [he, if_pos hc, List.length_tail]
    simp only [List.length_append, List.length_singleton]
    omega
  · rw [he, if_neg hc]
    simp only [not_lt, List.length_append, List.length_singleton] at hc ⊢
    omega

/-- The cap invariant survives any sequence of engine timeline appends. -/
theorem timelineAppend_foldl_length_le (xs : List ℕ) (tl : List ℕ)
    (h : tl.length ≤ 100) : (xs.foldl timelineAppend tl).length ≤ 100 := by
  induction xs generalizing tl with
  | nil => exact h
  | cons x xs ih => exact ih _ (timelineAppend_length_le tl x h)

/-! ## Claim C5 — timeline cap 100 with FIFO eviction -/

/-- C5: after any number of per-frame timeline appends starting from a
timeline within the cap (the session starts from `[]`), the timeline length
is at most 100; an append to a full timeline evicts exactly the oldest
element, keeping the survivors in order, and an append below the cap evicts
nothing.  The `video_websocket` variant of the append (main.py) has exactly
the same effect on every reachable timeline. -/
theorem C5_timeline_cap_fifo :
    (∀ (xs : List ℕ) (tl : List ℕ), tl.length ≤ 100 →
      (xs.foldl timelineAppend tl).length ≤ 100) ∧
    (∀ (tl : List ℕ) (x : ℕ), tl.length = 100 →
      timelineAppend tl x = tl.tail ++ [x]) ∧
    (∀ (tl : List ℕ) (x : ℕ), tl.length < 100 →
      timelineAppend tl x = tl ++ [x]) ∧
    (∀ (tl : List ℕ) (x : ℕ), tl.length ≤ 100 →
      timelineAppendWs tl x = timelineAppend tl x) := by
  refine ⟨fun xs tl h => timelineAppend_foldl_length_le xs tl h, ?_, ?_, ?_⟩
  · intro tl x h
    have he : timelineAppend tl x =
        if (tl ++ [x]).length > 100 then (tl ++ [x]).tail else tl ++ [x] := rfl
    have hlen : (tl ++ [x]).length > 100 := by
      simp only [List.length_append, List.length_singleton]; omega
    rw [he, if_pos hlen]
    cases tl with
    | nil => simp at h
    | cons a as => simp
  · intro tl x h
    have he : timelineAppend tl x =
        if (tl ++ [x]).length > 100 then (tl ++ [x]).tail else tl ++ [x] := rfl
    have hlen : ¬ (tl ++ [x]).length > 100 := by
      simp only [List.length_append, List.length_singleton]; omega
    rw [he, if_neg hlen]
  · intro tl x h
    have hws : timelineAppendWs tl x =
        (tl ++ [x]).drop ((tl ++ [x]).length - 100) := rfl
    have he : timelineAppend tl x =
        if (tl ++ [x]).length > 100 then (tl ++ [x]).tail else tl ++ [x] := rfl
    rcases Nat.lt_or_ge tl.length 100 with hlt | hge
    · have h0 : (tl ++ [x]).length - 100 = 0 := by
        simp only [List.length_append, List.length_singleton]; omega
      have hn : ¬ (tl ++ [x]).length > 100 := by
        simp only [List.length_append, List.length_singleton]; omega
      rw [hws, he, h0, if_neg hn, List.drop_zero]
    · have h100 : tl.length = 100 := le_antisymm h hge
      have h1 : (tl ++ [x]).length - 100 = 1 := by
        simp only [List.length_append, List.length_singleton]; omega
      have hy : (tl ++ [x]).length > 100 := by
        simp only [List.length_append, List.length_singleton]; omega
      rw [hws, he, h1, if_pos hy, List.drop_one]

/-- Witness for C5 at concrete inputs: three appends from the empty timeline
stay within the cap, and an append to a full 100-element timeline evicts
exactly the head. -/
theorem C5_timeline_cap_fifo_witness :
    (([4, 7, 9].foldl timelineAppend []).length ≤ 100) ∧
    (timelineAppend (List.replicate 100 3) 5 = (List.replicate 100 3).tail ++ [5]) := by
  constructor
  · exact C5_timeline_cap_fifo.1 [4, 7, 9] [] (by simp)
  · exact C5_timeline_cap_fifo.2.1 (List.replicate 100 3) 5 (by simp)

/-! ## Claim C8 — broadcast mailbox read-then-clear -/

/-- C8: for every engine state, a `get_broadcast_data` read returns the
stored payload and clears the single-slot mailbox, so a second read with no
intervening write returns `none`; the same payload is never returned twice. -/
theorem C8_mailbox_read_clears (e : DetectionEngine) :
    e.get_broadcast_data.1 = e.latest_broadcast_data ∧
    e.get_broadcast_data.2.latest_broadcast_data = none ∧
    e.get_broadcast_data.2.get_broadcast_data.1 = none :=
  ⟨rfl, rfl, rfl⟩

/-! ## Claim C9 — per-viewer backpressure in broadcast -/

/-- C9: on a broadcast tick, every client is handled by `broadcastClient`; a
viewer that is not ready is sent nothing and only its `frames_dropped` is
incremented by exactly 1; a ready viewer has delivery attempted with
`frames_sent` incremented by exactly 1 on success and unchanged on failure,
any delivery exception is swallowed (the result is always an ordinary client
state), and the viewer's `ready` flag is true again after the attempt
regardless of the outcome. -/
theorem C9_broadcast_backpressure (send : ℕ → Except String Unit) (now : ℕ)
    (clients : List (ℕ × ClientState)) (cid : ℕ) (c : ClientState) :
    (ConnectionManager.broadcast send now clients =
      clients.map fun p => (p.1, broadcastClient (send p.1) now p.2)) ∧
    (c.ready = false →
      broadcastClient (send cid) now c =
        { c with frames_dropped := c.frames_dropped + 1 }) ∧
    (c.ready = true →
      (broadcastClient (send cid) now c).ready = true ∧
      (broadcastClient (send cid) now c).frames_dropped = c.frames_dropped ∧
      (∀ u, send cid = .ok u →
        (broadcastClient (send cid) now c).frames_sent = c.frames_sent + 1) ∧
      (∀ err, send cid = .error err →
        (broadcastClient (send cid) now c).frames_sent = c.frames_sent)) := by
  refine ⟨rfl, ?_, ?_⟩
  · intro h
    simp [broadcastClient, h]
  · intro h
    cases hs : send cid with
    | ok u => simp [broadcastClient, sendWithBackpressure, h, hs]
    | error err => simp [broadcastClient, sendWithBackpressure, h, hs]

/-- Witness for C9 at concrete inputs: a not-ready viewer has its drop
counter bumped and nothing else, a ready viewer with a successful send has
its sent counter bumped and ends ready. -/
theorem C9_broadcast_backpressure_witness :
    (broadcastClient ((fun _ => Except.ok ()) 0) 7
        { ready := false, last_send_time := 2, frames_sent := 3, frames_dropped := 4 } =
      { ready := false, last_send_time := 2, frames_sent := 3, frames_dropped := 5 }) ∧
    (broadcastClient ((fun _ => Except.ok ()) 0) 7
        { ready := true, last_send_time := 2, frames_sent := 3, frames_dropped := 4 }).ready = true ∧
    (broadcastClient ((fun _ => Except.ok ()) 0) 7
        { ready := true, last_send_time := 2, frames_sent := 3, frames_dropped := 4 }).frames_sent = 4 := by
  refine ⟨?_, ?_, ?_⟩
  · exact (C9_broadcast_backpressure (fun _ => Except.ok ()) 7 [] 0 _).2.1 rfl
  · exact ((C9_broadcast_backpressure (fun _ => Except.ok ()) 7 [] 0 _).2.2 rfl).1
  · exact (((C9_broadcast_backpressure (fun _ => Except.ok ()) 7 [] 0 _).2.2 rfl).2.2).1 () rfl

/-! ## Claim C1 — unique counting per track id -/

/-- Counting a detection never removes anything from `seen_ids`. -/
theorem seen_ids_subset_det (s : EngineStats) (det : Detection) :
    s.seen_ids ⊆ (updateCountsDet s det).seen_ids := by
  rcases hdt : det.track_id with _ | t
  · simp only [updateCountsDet, hdt]
    exact subset_rfl
  · simp only [updateCountsDet, hdt]
    split
    · exact subset_rfl
    · exact Finset.subset_insert _ _

/-- `seen_ids` only grows across one `_update_counts` call. -/
theorem seen_ids_subset_list (s : EngineStats) (dets : List Detection) :
    s.seen_ids ⊆ (updateCounts s dets).seen_ids := by
  induction dets generalizing s with
  | nil => exact subset_rfl
  | cons d ds ih =>
    exact (seen_ids_subset_det s d).trans (ih (updateCountsDet s d))

/-- `seen_ids` only grows across a whole session of `_update_counts` calls. -/
theorem seen_ids_subset_frames (s : EngineStats) (frames : List (List Detection)) :
    s.seen_ids ⊆ (updateCountsFrames s frames).seen_ids := by
  induction frames generalizing s with
  | nil => exact subset_rfl
  | cons f fs ih =>
    exact (seen_ids_subset_list s f).trans (ih (updateCounts s f))

/-- C1: in tracking-enabled mode (`_update_counts` is only invoked on that
path), the first detection carrying a not-yet-seen `track_id` bumps the
cumulative count of the class it carries by exactly 1, leaves every other
class count unchanged, and marks the id seen; a detection whose `track_id`
is already seen changes nothing at all; and once an id is seen, a detection
carrying it is a no-op after any number of further frames, whatever class it
carries then. -/
theorem C1_unique_count_per_track_id (s : EngineStats) (det : Detection)
    (t : ℤ) (hdt : det.track_id = some t) :
    (t ∉ s.seen_ids →
      (updateCountsDet s det).counts det.class_name = s.counts det.class_name + 1 ∧
      (∀ c, c ≠ det.class_name → (updateCountsDet s det).counts c = s.counts c) ∧
      t ∈ (updateCountsDet s det).seen_ids) ∧
    (t ∈ s.seen_ids → updateCountsDet s det = s) ∧
    (∀ (frames : List (List Detection)) (det' : Detection),
      t ∈ s.seen_ids → det'.track_id = some t →
      updateCountsDet (updateCountsFrames s frames) det' =
        updateCountsFrames s frames) := by
  refine ⟨?_, ?_, ?_⟩
  · intro hmem
    simp only [updateCountsDet, hdt, if_neg hmem]
    exact ⟨Function.update_same _ _ _,
      fun c hc => Function.update_noteq hc _ _,
      Finset.mem_insert_self _ _⟩
  · intro hmem
    simp only [updateCountsDet, hdt, if_pos hmem]
  · intro frames det' hmem hdt'
    have hmem' : t ∈ (updateCountsFrames s frames).seen_ids :=
      seen_ids_subset_frames s frames hmem
    simp only [updateCountsDet, hdt', if_pos hmem']

/-- Witness for C1 at a concrete input: from freshly reset stats, a `car`
detection with track id 1 bumps the `car` count to exactly 1. -/
theorem C1_unique_count_per_track_id_witness :
    (updateCountsDet (resetStats stats0) detCar1).counts "car" =
      (resetStats stats0).counts "car" + 1 := by
  exact ((C1_unique_count_per_track_id (resetStats stats0) detCar1 1 rfl).1
    (by simp [resetStats, stats0])).1

/-! ## Claim C10 — total of the counts equals the number of seen ids -/

/-- One counted detection preserves the equation "sum of the per-class
counts = number of seen ids" over any class universe containing its class. -/
theorem counts_sum_eq_card_det (C : Finset String) (s : EngineStats)
    (det : Detection) (hC : det.class_name ∈ C)
    (h : ∑ c ∈ C, s.counts c = s.seen_ids.card) :
    ∑ c ∈ C, (updateCountsDet s det).counts c =
      (updateCountsDet s det).seen_ids.card := by
  rcases hdt : det.track_id with _ | t
  · simp only [updateCountsDet, hdt]
    exact h
  · simp only [updateCountsDet, hdt]
    split
    · exact h
    · next hmem =>
      rw [← Finset.add_sum_erase C s.counts hC, ← Finset.sdiff_singleton_eq_erase] at h
      simp only
      rw [Finset.sum_update_of_mem hC, Finset.card_insert_of_not_mem hmem]
      omega

/-- The sum-equals-cardinality invariant survives one `_update_counts`
call whose detections all carry classes inside `C`. -/
theorem counts_sum_eq_card_list (C : Finset String) (dets : List Detection)
    (s : EngineStats) (hC : ∀ d ∈ dets, d.class_name ∈ C)
    (h : ∑ c ∈ C, s.counts c = s.seen_ids.card) :
    ∑ c ∈ C, (updateCounts s dets).counts c =
      (updateCounts s dets).seen_ids.card := by
  induction dets generalizing s with
  | nil => exact h
  | cons d ds ih =>
    exact ih (updateCountsDet s d)
      (fun d' hd' => hC d' (List.mem_cons_of_mem d hd'))
      (counts_sum_eq_card_det C s d (hC d (List.mem_cons_self d ds)) h)

/-- The sum-equals-cardinality invariant survives a whole session. -/
theorem counts_sum_eq_card_frames (C : Finset String)
    (frames : List (List Detection)) (s : EngineStats)
    (hC : ∀ f ∈ frames, ∀ d ∈ f, d.class_name ∈ C)
    (h : ∑ c ∈ C, s.counts c = s.seen_ids.card) :
    ∑ c ∈ C, (updateCountsFrames s frames).counts c =
      (updateCountsFrames s frames).seen_ids.card := by
  induction frames generalizing s with
  | nil => exact h
  | cons f fs ih =>
    exact ih (updateCounts s f)
      (fun f' hf' => hC f' (List.mem_cons_of_mem f hf'))
      (counts_sum_eq_card_list C f s (hC f (List.mem_cons_self f fs)) h)

/-- C10: starting from freshly reset stats, after any sequence of
`_update_counts` calls the per-class counts sum (over any class universe
`C` covering the classes that occurred) to exactly the number of distinct
track ids in `seen_ids`: each distinct id contributes to exactly one class
count for the whole session. -/
theorem C10_counts_total_eq_seen_card (s : EngineStats)
    (frames : List (List Detection)) (C : Finset String)
    (hC : ∀ f ∈ frames, ∀ d ∈ f, d.class_name ∈ C) :
    ∑ c ∈ C, (updateCountsFrames (resetStats s) frames).counts c =
      (updateCountsFrames (resetStats s) frames).seen_ids.card := by
  exact counts_sum_eq_card_frames C frames (resetStats s) hC (by simp [resetStats])

/-- Witness for C10 at a concrete input: one frame carrying a car (id 1), a
bus (id 2) and the car again (id 1), then a frame with the car once more —
the class universe {car, bus} covers the stream, and the theorem applies. -/
theorem C10_counts_total_eq_seen_card_witness :
    ∑ c ∈ ({"car", "bus"} : Finset String),
      (updateCountsFrames (resetStats stats0)
        [[detCar1, detBus2, detCar1], [detCar1b]]).counts c =
      (updateCountsFrames (resetStats stats0)
        [[detCar1, detBus2, detCar1], [detCar1b]]).seen_ids.card := by
  exact C10_counts_total_eq_seen_card stats0 _ _ (by
    intro f hf d hd
    fin_cases hf <;> fin_cases hd <;> simp [detCar1, detBus2, detCar1b])

/-! ## Claim C7 — speed guard and clamp -/

/-- Rounding to the nearest tenth keeps a value of `[0, 200]` in `[0, 200]`. -/
theorem round1_bounds (x : ℚ) (h0 : 0 ≤ x) (h200 : x ≤ 200) :
    0 ≤ round1 x ∧ round1 x ≤ 200 := by
  unfold round1
  constructor
  · apply div_nonneg _ (by norm_num)
    have hz : (0 : ℤ) ≤ round (x * 10) := by
      rw [round_eq]
      apply Int.le_floor.mpr
      push_cast
      nlinarith
    exact_mod_cast hz
  · rw [div_le_iff₀ (by norm_num : (0:ℚ) < 10)]
    have hz : round (x * 10) ≤ 2000 := by
      rw [round_eq]
      have hle : (⌊x * 10 + 1/2⌋ : ℤ) ≤ ⌊(2000.5 : ℚ)⌋ :=
        Int.floor_le_floor (by nlinarith)
      have hv : (⌊(2000.5 : ℚ)⌋ : ℤ) = 2000 := by
        norm_num [Int.floor_eq_iff]
      omega
    calc ((round (x * 10) : ℤ) : ℚ) ≤ ((2000 : ℤ) : ℚ) := by exact_mod_cast hz
      _ = 200 * 10 := by norm_num

/-- Whatever the trajectory, `calculate_speed` either returns 0 through one
of its guards or returns a clamped, rounded value. -/
theorem calculate_speed_cases (t : Track) (fps ppm : ℚ) :
    t.calculate_speed fps ppm = 0 ∨
    ∃ x, t.calculate_speed fps ppm = round1 (max 0 (min 200 x)) := by
  unfold Track.calculate_speed
  split
  · exact Or.inl rfl
  · dsimp only
    split
    · exact Or.inl rfl
    · exact Or.inr ⟨_, rfl⟩

/-- C7: for every track and every calibration, `calculate_speed` returns 0
whenever the trajectory holds fewer than 5 samples, and its value always
lies in the closed interval `[0, 200]`. -/
theorem C7_speed_guard_and_clamp (t : Track) (fps ppm : ℚ) :
    (t.trajectory.length < 5 → t.calculate_speed fps ppm = 0) ∧
    0 ≤ t.calculate_speed fps ppm ∧ t.calculate_speed fps ppm ≤ 200 := by
  constructor
  · intro h5
    unfold Track.calculate_speed
    rw [if_pos (Or.inl h5)]
  · rcases calculate_speed_cases t fps ppm with h | ⟨x, hx⟩
    · rw [h]; norm_num
    · rw [hx]
      exact round1_bounds _ (le_max_left _ _)
        (max_le (by norm_num) (min_le_left _ _))

/-- Witness for C7 at a concrete input: a freshly created track (one
trajectory sample) has speed 0 at the default calibration, inside `[0, 200]`. -/
theorem C7_speed_guard_and_clamp_witness :
    (Track.init 1 "car" [0, 0, 10, 10] 3).calculate_speed 25 50 = 0 ∧
    0 ≤ (Track.init 1 "car" [0, 0, 10, 10] 3).calculate_speed 25 50 := by
  refine ⟨(C7_speed_guard_and_clamp _ 25 50).1 (by simp [Track.init]), ?_⟩
  exact ((C7_speed_guard_and_clamp (Track.init 1 "car" [0, 0, 10, 10] 3) 25 50).2).1

/-! ## Claim C3 — the 9 km/h "KELUAR (Utara)" scenario -/

/-- C3: on a track whose centroids move linearly from `(100, 100)` to
`(100, 50)` over 10 frames (one sample per frame, tracker calibration
fps = 25 and pixels_per_meter = 50), `calculate_speed` returns exactly
9 km/h — the speed window covers the last 10 samples: 45 px = 0.9 m in
9/25 s — and `calculate_direction` returns the outbound flow label
`"KELUAR"` combined with the `"Utara"` (North) compass sector. -/
theorem C3_scenario_speed_and_direction :
    track9.calculate_speed 25 50 = 9 ∧
    track9.calculate_direction = "KELUAR (Utara)" := by
  have h45 : Rat.sqrt 2025 = 45 := by
    have h : (2025 : ℚ) = 45 * 45 := by norm_num
    rw [h, Rat.sqrt_eq]; norm_num
  constructor
  · unfold Track.calculate_speed
    rw [if_neg (by norm_num [track9, traj9])]
    norm_num [track9, traj9, List.getD, h45, round1, round_eq]
  · unfold Track.calculate_direction
    rw [if_neg (by norm_num [track9, traj9])]
    norm_num [track9, traj9, List.getD]
    have hat : atan2 (50:ℝ) 0 = Real.pi / 2 := by
      unfold atan2
      norm_num
    rw [hat]
    have hang : Real.pi / 2 * 180 / Real.pi = 90 := by
      field_simp
      ring
    rw [hang]
    rw [if_neg (by norm_num : ¬ (90:ℝ) < 0)]
    have hfl : (⌊((90:ℝ) + 45/2) / 45⌋) = 2 := by
      have h25 : ((90:ℝ) + 45/2) / 45 = 2.5 := by norm_num
      rw [h25]
      norm_num [Int.floor_eq_iff]
    rw [hfl]
    rfl

/-! ## Claim C2 — a detector/annotator exception is fatal to the loop -/

/-- An iteration that escapes with an error leaves `is_running` exactly as
it was: nothing on the exception path writes the flag. -/
theorem processIteration_error_is_running {detect : ℕ → Except String (List Detection)}
    {annotate : ℕ → List Detection → List TrackDict → Except String String}
    {me : ℕ} {e : DetectionEngine} {f : ℕ} {err : String} {e' : DetectionEngine}
    (h : processIteration detect annotate me e f = .error (err, e')) :
    e'.is_running = e.is_running := by
  unfold processIteration at h
  split at h
  · injection h with h1
    injection h1 with ha hb
    subst hb
    rfl
  · dsimp only at h
    split at h
    · injection h with h1
      injection h1 with ha hb
      subst hb
      rfl
    · exact absurd h (by simp)

/-- An iteration that completes normally also leaves `is_running` as it was. -/
theorem processIteration_ok_is_running {detect : ℕ → Except String (List Detection)}
    {annotate : ℕ → List Detection → List TrackDict → Except String String}
    {me : ℕ} {e : DetectionEngine} {f : ℕ} {e' : DetectionEngine}
    (h : processIteration detect annotate me e f = .ok e') :
    e'.is_running = e.is_running := by
  unfold processIteration at h
  split at h
  · exact absurd h (by simp)
  · dsimp only at h
    split at h
    · exact absurd h (by simp)
    · injection h with h1
      subst h1
      rfl

/-- A loop that ends on the fatal-error path leaves `is_running` exactly as
it was when the loop was entered. -/
theorem processLoop_error_is_running {detect : ℕ → Except String (List Detection)}
    {annotate : ℕ → List Detection → List TrackDict → Except String String}
    {me : ℕ} : ∀ (frames : List ℕ) (e : DetectionEngine) (err : String)
    (e' : DetectionEngine),
    processLoop detect annotate me e frames = .error (err, e') →
    e'.is_running = e.is_running := by
  intro frames
  induction frames with
  | nil =>
    intro e err e' h
    exact absurd h (by simp [processLoop])
  | cons f fs ih =>
    intro e err e' h
    unfold processLoop at h
    split at h
    · next p hp =>
      rw [h] at hp
      exact processIteration_error_is_running hp
    · next e2 hp =>
      exact (ih e2 err e' h).trans (processIteration_ok_is_running hp)

/-- C2 (amended): an exception raised by the detector (or the annotation
step) inside one iteration propagates as a fatal loop error — the remaining
frames are never processed and the error escapes the loop — but the engine
does not transition to Stopped: nothing on that path writes `is_running`,
which keeps the value it had while the loop was running (true). -/
theorem C2_fatal_error_terminates_loop_keeps_is_running
    (detect : ℕ → Except String (List Detection))
    (annotate : ℕ → List Detection → List TrackDict → Except String String)
    (me : ℕ) (e : DetectionEngine) :
    (∀ f fs p, processIteration detect annotate me e f = .error p →
      processLoop detect annotate me e (f :: fs) = .error p) ∧
    (∀ frames err e', processLoop detect annotate me e frames = .error (err, e') →
      e'.is_running = e.is_running) := by
  constructor
  · intro f fs p hp
    unfold processLoop
    rw [hp]
  · intro frames err e' h
    exact processLoop_error_is_running frames e err e' h

/-- Counterexample to C2 as stated: a run of the loop on one frame with an
always-raising detector ends through the fatal-error path, yet the engine
still reports `is_running = true`, not the Stopped state the claim
demands. -/
theorem C2_counterexample_is_running_stays_true :
    loopCrashed (processLoop detectFail annotateOk 5 engine0 [0]) = true ∧
    loopIsRunning (processLoop detectFail annotateOk 5 engine0 [0]) = true :=
  ⟨rfl, rfl⟩

/-- Witness for the amended C2 at a concrete input: the error of the first
iteration escapes the whole loop unchanged, and the engine state it carries
still has `is_running = true`. -/
theorem C2_fatal_error_witness :
    processLoop detectFail annotateOk 5 engine0 [0] =
      .error ("model crashed", engine1) ∧
    engine1.is_running = true := by
  constructor
  · exact (C2_fatal_error_terminates_loop_keeps_is_running detectFail annotateOk
      5 engine0).1 0 [] ("model crashed", engine1) rfl
  · exact (C2_fatal_error_terminates_loop_keeps_is_running detectFail annotateOk
      5 engine0).2 [0] "model crashed" engine1 (by
        exact (C2_fatal_error_terminates_loop_keeps_is_running detectFail
          annotateOk 5 engine0).1 0 [] ("model crashed", engine1) rfl)

/-! ## Dictionary lemmas -/

/-- Lookup in a one-entry-longer dict: the head answers first. -/
theorem dictFind_cons (p : ℤ × α) (d : List (ℤ × α)) (k : ℤ) :
    dictFind (p :: d) k = if p.1 = k then some p.2 else dictFind d k := by
  by_cases h : p.1 = k
  · rw [if_pos h]
    unfold dictFind
    rw [List.find?_cons_of_pos _ (by simpa using h)]
    rfl
  · rw [if_neg h]
    unfold dictFind
    rw [List.find?_cons_of_neg _ (by simpa using h)]

/-- A successful lookup exhibits a dict entry. -/
theorem dictFind_mem {d : List (ℤ × α)} {k : ℤ} {v : α}
    (h : dictFind d k = some v) : (k, v) ∈ d := by
  unfold dictFind at h
  rcases hf : d.find? fun p => p.1 == k with _ | p
  · rw [hf] at h; exact absurd h (by simp)
  · rw [hf] at h
    have hp : p ∈ d := List.mem_of_find?_eq_some hf
    have hk : p.1 = k := by simpa using List.find?_some hf
    have hv : p.2 = v := by simpa using h
    have hpkv : p = (k, v) := Prod.ext hk hv
    rwa [hpkv] at hp

/-- Replacing the slot of key `k` makes lookups of `k` return the new value,
provided some entry carries key `k`. -/
theorem dictFind_replace_self (d : List (ℤ × α)) (k : ℤ) (v : α)
    (h : (d.any fun p => p.1 == k) = true) :
    dictFind (d.map fun p => if p.1 == k then (k, v) else p) k = some v := by
  induction d with
  | nil => simp at h
  | cons p d ih =>
    by_cases hp : p.1 = k
    · rw [List.map_cons, if_pos (by simpa using hp), dictFind_cons, if_pos rfl]
    · rw [List.map_cons, if_neg (by simpa using hp), dictFind_cons, if_neg hp]
      apply ih
      cases hq : (p.1 == k) with
      | true => exact absurd (by simpa using hq) hp
      | false =>
        rw [List.any_cons, hq, Bool.false_or] at h
        exact h

/-- Replacing the slot of key `k` leaves lookups of other keys unchanged. -/
theorem dictFind_replace_ne (d : List (ℤ × α)) (k k' : ℤ) (v : α)
    (h : k' ≠ k) :
    dictFind (d.map fun p => if p.1 == k then (k, v) else p) k' =
      dictFind d k' := by
  induction d with
  | nil => rfl
  | cons p d ih =>
    by_cases hp : p.1 = k
    · rw [List.map_cons, if_pos (by simpa using hp), dictFind_cons,
        dictFind_cons, if_neg (by simpa using Ne.symm h),
        if_neg (by rw [hp]; exact Ne.symm h)]
      exact ih
    · rw [List.map_cons, if_neg (by simpa using hp), dictFind_cons,
        dictFind_cons]
      by_cases hq : p.1 = k'
      · rw [if_pos hq, if_pos hq]
      · rw [if_neg hq, if_neg hq]
        exact ih

/-- Appending a fresh entry makes its key findable when no earlier entry
carries it. -/
theorem dictFind_append_self (d : List (ℤ × α)) (k : ℤ) (v : α)
    (hnone : ∀ p ∈ d, p.1 ≠ k) : dictFind (d ++ [(k, v)]) k = some v := by
  induction d with
  | nil => rw [List.nil_append, dictFind_cons, if_pos rfl]
  | cons p d ih =>
    rw [List.cons_append, dictFind_cons,
      if_neg (hnone p (List.mem_cons_self p d))]
    exact ih fun q hq => hnone q (List.mem_cons_of_mem p hq)

/-- Appending a fresh entry leaves lookups of other keys unchanged. -/
theorem dictFind_append_ne (d : List (ℤ × α)) (k k' : ℤ) (v : α)
    (h : k' ≠ k) : dictFind (d ++ [(k, v)]) k' = dictFind d k' := by
  induction d with
  | nil =>
    rw [List.nil_append, dictFind_cons, if_neg (by simpa using Ne.symm h)]
  | cons p d ih =>
    rw [List.cons_append, dictFind_cons, dictFind_cons]
    by_cases hq : p.1 = k'
    · rw [if_pos hq, if_pos hq]
    · rw [if_neg hq, if_neg hq]
      exact ih

/-- Looking up the key just written always returns the written value. -/
theorem dictFind_set_self (d : List (ℤ × α)) (k : ℤ) (v : α) :
    dictFind (dictSet d k v) k = some v := by
  unfold dictSet
  by_cases ha : (d.any fun p => p.1 == k) = true
  · rw [if_pos ha]
    exact dictFind_replace_self d k v ha
  · rw [if_neg ha]
    refine dictFind_append_self d k v ?_
    intro p hp hk
    exact ha (List.any_eq_true.mpr ⟨p, hp, by simpa using hk⟩)

/-- Writing key `k` never disturbs the lookup of a different key. -/
theorem dictFind_set_ne (d : List (ℤ × α)) (k k' : ℤ) (v : α) (h : k' ≠ k) :
    dictFind (dictSet d k v) k' = dictFind d k' := by
  unfold dictSet
  by_cases ha : (d.any fun p => p.1 == k) = true
  · rw [if_pos ha]
    exact dictFind_replace_ne d k k' v h
  · rw [if_neg ha]
    exact dictFind_append_ne d k k' v h

/-- A pointwise property of dict entries survives a write whose new entry
satisfies it. -/
theorem forall_mem_dictSet {P : ℤ × α → Prop} {d : List (ℤ × α)} {k : ℤ}
    {v : α} (hd : ∀ p ∈ d, P p) (hv : P (k, v)) :
    ∀ p ∈ dictSet d k v, P p := by
  unfold dictSet
  by_cases ha : (d.any fun p => p.1 == k) = true
  · rw [if_pos ha]
    intro p hp
    rcases List.mem_map.mp hp with ⟨q, hq, hpq⟩
    by_cases hqk : q.1 = k
    · rw [if_pos (by simpa using hqk)] at hpq
      rw [← hpq]
      exact hv
    · rw [if_neg (by simpa using hqk)] at hpq
      rw [← hpq]
      exact hd q hq
  · rw [if_neg ha]
    intro p hp
    rcases List.mem_append.mp hp with hp | hp
    · exact hd p hp
    · rw [List.mem_singleton.mp hp]
      exact hv

/-- With one slot per key, two entries sharing a key carry the same value. -/
theorem keysNodup_eq_of_mem {d : List (ℤ × α)} (hk : keysNodup d)
    {k : ℤ} {v w : α} (hv : (k, v) ∈ d) (hw : (k, w) ∈ d) : v = w := by
  induction d with
  | nil => simp at hv
  | cons p d ih =>
    have hk1 : p.1 ∉ d.map Prod.fst := by
      rw [keysNodup, List.map_cons, List.nodup_cons] at hk
      exact hk.1
    have hk2 : keysNodup d := by
      rw [keysNodup, List.map_cons, List.nodup_cons] at hk
      exact hk.2
    rcases List.mem_cons.mp hv with hv1 | hv1
    · rcases List.mem_cons.mp hw with hw1 | hw1
      · exact congrArg Prod.snd (hv1.trans hw1.symm)
      · exfalso
        apply hk1
        have hmem : (k, w).1 ∈ d.map Prod.fst :=
          List.mem_map_of_mem Prod.fst hw1
        rw [← hv1]
        exact hmem
    · rcases List.mem_cons.mp hw with hw1 | hw1
      · exfalso
        apply hk1
        have hmem : (k, v).1 ∈ d.map Prod.fst :=
          List.mem_map_of_mem Prod.fst hv1
        rw [← hw1]
        exact hmem
      · exact ih hk2 hv1 hw1

/-- A dict write keeps the one-slot-per-key invariant. -/
theorem keysNodup_dictSet {d : List (ℤ × α)} (hk : keysNodup d) (k : ℤ)
    (v : α) : keysNodup (dictSet d k v) := by
  unfold dictSet
  by_cases ha : (d.any fun p => p.1 == k) = true
  · rw [if_pos ha]
    have hmap : ((d.map fun p => if p.1 == k then (k, v) else p).map Prod.fst)
        = d.map Prod.fst := by
      rw [List.map_map]
      apply List.map_congr_left
      intro p hp
      simp only [Function.comp_apply]
      by_cases hpk : p.1 = k
      · rw [if_pos (show (p.1 == k) = true by simpa using hpk)]
        exact hpk.symm
      · rw [if_neg (show ¬ (p.1 == k) = true by simpa using hpk)]
    rw [keysNodup, hmap]
    exact hk
  · rw [if_neg ha]
    rw [keysNodup, List.map_append]
    refine List.Nodup.append hk (by simp) ?_
    intro x hx hy
    rcases List.mem_singleton.mp (by simpa using hy) with rfl
    rcases List.mem_map.mp hx with ⟨p, hp, hpx⟩
    exact ha (List.any_eq_true.mpr ⟨p, hp, by simpa using hpx⟩)

/-- Filtering keeps the one-slot-per-key invariant. -/
theorem keysNodup_filter {d : List (ℤ × α)} (hk : keysNodup d)
    (q : ℤ × α → Bool) : keysNodup (d.filter q) :=
  List.Nodup.sublist (List.Sublist.map Prod.fst (List.filter_sublist d)) hk

/-- A dict entry that passes the filter is still found afterwards. -/
theorem dictFind_filter {q : ℤ × α → Bool} {d : List (ℤ × α)} {k : ℤ} {v : α}
    (h : dictFind d k = some v) (hq : q (k, v) = true) :
    dictFind (d.filter q) k = some v := by
  induction d with
  | nil => simp [dictFind] at h
  | cons p d ih =>
    rw [dictFind_cons] at h
    by_cases hp : p.1 = k
    · rw [if_pos hp] at h
      have hv : p.2 = v := by simpa using h
      have hpkv : p = (k, v) := Prod.ext hp hv
      rw [List.filter_cons, hpkv, hq, if_pos rfl, dictFind_cons, if_pos rfl]
    · rw [if_neg hp] at h
      rw [List.filter_cons]
      by_cases hqp : q p = true
      · rw [if_pos hqp, dictFind_cons, if_neg hp]
        exact ih h
      · rw [if_neg hqp]
        exact ih h

/-- With one slot per key, a dict entry removed by the filter is gone. -/
theorem dictFind_filter_none {q : ℤ × α → Bool} {d : List (ℤ × α)} {k : ℤ}
    {v : α} (hk : keysNodup d) (h : dictFind d k = some v)
    (hq : q (k, v) = false) : dictFind (d.filter q) k = none := by
  have hfind : ((d.filter q).find? fun p => p.1 == k) = none := by
    rw [List.find?_eq_none]
    intro x hx hbeq
    rcases List.mem_filter.mp hx with ⟨hxd, hxq⟩
    have hx1 : x.1 = k := by simpa using hbeq
    have hx2 : x = (k, x.2) := Prod.ext hx1 rfl
    have hxv : x.2 = v :=
      keysNodup_eq_of_mem hk (hx2 ▸ hxd) (dictFind_mem h)
    rw [hx2, hxv] at hxq
    rw [hq] at hxq
    exact absurd hxq (by simp)
  unfold dictFind
  rw [hfind]
  rfl

/-- Every survivor of the stale sweep is within the age bound. -/
theorem removeStale_bound {fn ma : ℕ} {tracks : List (ℤ × Track)} :
    ∀ p ∈ removeStale fn ma tracks, fn - p.2.last_update_frame ≤ ma := by
  intro p hp
  have h2 := (List.mem_filter.mp hp).2
  have h3 := of_decide_eq_true h2
  omega

/-! ## Lemmas on the detection-application phase of the tracker update -/

/-- A detection that does not carry key `k` leaves the lookup of `k` alone. -/
theorem applyDetStep_find_ne {fn : ℕ} {acc : List (ℤ × Track)}
    {det : Detection} {k : ℤ} (h : det.track_id ≠ some k) :
    dictFind (applyDetStep fn acc det) k = dictFind acc k := by
  rcases hdt : det.track_id with _ | tid
  · simp only [applyDetStep, hdt]
  · have hne : k ≠ tid := fun he => h (by rw [hdt, he])
    rcases hf : dictFind acc tid with _ | tr
    · simp only [applyDetStep, hdt, hf]
      exact dictFind_set_ne acc tid k _ hne
    · simp only [applyDetStep, hdt, hf]
      exact dictFind_set_ne acc tid k _ hne

/-- A whole frame of detections none of which carries key `k` leaves the
lookup of `k` alone. -/
theorem applyDetections_find_ne {fn : ℕ} {dets : List Detection} :
    ∀ {tracks : List (ℤ × Track)} {k : ℤ},
    (∀ d ∈ dets, d.track_id ≠ some k) →
    dictFind (applyDetections fn tracks dets) k = dictFind tracks k := by
  induction dets with
  | nil =>
    intro tracks k h
    rfl
  | cons det dets ih =>
    intro tracks k h
    rw [show applyDetections fn tracks (det :: dets) =
        applyDetections fn (applyDetStep fn tracks det) dets from rfl]
    rw [ih fun d hd => h d (List.mem_cons_of_mem det hd)]
    exact applyDetStep_find_ne (h det (List.mem_cons_self det dets))

/-- One step keeps a freshly-updated entry fresh. -/
theorem applyDetStep_preserve_fresh {fn : ℕ} {acc : List (ℤ × Track)}
    {k : ℤ} {tr : Track} (det : Detection) (h : dictFind acc k = some tr)
    (hl : tr.last_update_frame = fn) (hi : tr.track_id = k) :
    ∃ tr', dictFind (applyDetStep fn acc det) k = some tr' ∧
      tr'.last_update_frame = fn ∧ tr'.track_id = k := by
  rcases hdt : det.track_id with _ | tid
  · refine ⟨tr, ?_, hl, hi⟩
    simp only [applyDetStep, hdt]
    exact h
  · by_cases hk : tid = k
    · subst hk
      refine ⟨tr.update det.bbox fn, ?_, rfl, hi⟩
      simp only [applyDetStep, hdt, h]
      exact dictFind_set_self acc tid _
    · have hne : k ≠ tid := fun he => hk he.symm
      rcases hf : dictFind acc tid with _ | tr0
      · refine ⟨tr, ?_, hl, hi⟩
        simp only [applyDetStep, hdt, hf]
        rw [dictFind_set_ne acc tid k _ hne]
        exact h
      · refine ⟨tr, ?_, hl, hi⟩
        simp only [applyDetStep, hdt, hf]
        rw [dictFind_set_ne acc tid k _ hne]
        exact h

/-- The rest of the frame keeps a freshly-updated entry fresh. -/
theorem applyDetections_preserve_fresh {fn : ℕ} {dets : List Detection} :
    ∀ {tracks : List (ℤ × Track)} {k : ℤ} {tr : Track},
    dictFind tracks k = some tr → tr.last_update_frame = fn →
    tr.track_id = k →
    ∃ tr', dictFind (applyDetections fn tracks dets) k = some tr' ∧
      tr'.last_update_frame = fn ∧ tr'.track_id = k := by
  induction dets with
  | nil =>
    intro tracks k tr h hl hi
    exact ⟨tr, h, hl, hi⟩
  | cons det dets ih =>
    intro tracks k tr h hl hi
    rw [show applyDetections fn tracks (det :: dets) =
        applyDetections fn (applyDetStep fn tracks det) dets from rfl]
    rcases applyDetStep_preserve_fresh det h hl hi with ⟨ntr, h1, h2, h3⟩
    exact ih h1 h2 h3

/-- One step keeps every entry's stored id equal to its key. -/
theorem applyDetStep_wf {fn : ℕ} {acc : List (ℤ × Track)} {det : Detection}
    (hwf : ∀ p ∈ acc, p.2.track_id = p.1) :
    ∀ p ∈ applyDetStep fn acc det, p.2.track_id = p.1 := by
  rcases hdt : det.track_id with _ | tid
  · simpa only [applyDetStep, hdt] using hwf
  · simp only [applyDetStep, hdt]
    rcases hf : dictFind acc tid with _ | tr
    · exact forall_mem_dictSet hwf rfl
    · refine forall_mem_dictSet hwf ?_
      have htr : tr.track_id = tid := hwf (tid, tr) (dictFind_mem hf)
      exact htr

/-- The whole frame keeps every entry's stored id equal to its key. -/
theorem applyDetections_wf {fn : ℕ} {dets : List Detection} :
    ∀ {tracks : List (ℤ × Track)}, (∀ p ∈ tracks, p.2.track_id = p.1) →
    ∀ p ∈ applyDetections fn tracks dets, p.2.track_id = p.1 := by
  induction dets with
  | nil =>
    intro tracks hwf
    exact hwf
  | cons det dets ih =>
    intro tracks hwf
    rw [show applyDetections fn tracks (det :: dets) =
        applyDetections fn (applyDetStep fn tracks det) dets from rfl]
    exact ih (applyDetStep_wf hwf)

/-- One step keeps the one-slot-per-key invariant. -/
theorem applyDetStep_keysNodup {fn : ℕ} {acc : List (ℤ × Track)}
    {det : Detection} (hk : keysNodup acc) :
    keysNodup (applyDetStep fn acc det) := by
  rcases hdt : det.track_id with _ | tid
  · simpa only [applyDetStep, hdt] using hk
  · rcases hf : dictFind acc tid with _ | tr
    · simp only [applyDetStep, hdt, hf]
      exact keysNodup_dictSet hk tid _
    · simp only [applyDetStep, hdt, hf]
      exact keysNodup_dictSet hk tid _

/-- The whole frame keeps the one-slot-per-key invariant. -/
theorem applyDetections_keysNodup {fn : ℕ} {dets : List Detection} :
    ∀ {tracks : List (ℤ × Track)}, keysNodup tracks →
    keysNodup (applyDetections fn tracks dets) := by
  induction dets with
  | nil =>
    intro tracks hk
    exact hk
  | cons det dets ih =>
    intro tracks hk
    rw [show applyDetections fn tracks (det :: dets) =
        applyDetections fn (applyDetStep fn tracks det) dets from rfl]
    exact ih (applyDetStep_keysNodup hk)

/-- Every id of this frame's detections ends the detection phase with an
entry updated (or created) at this frame number and carrying the id. -/
theorem applyDetections_ids_fresh {fn : ℕ} {dets : List Detection} :
    ∀ {tracks : List (ℤ × Track)}, (∀ p ∈ tracks, p.2.track_id = p.1) →
    ∀ k ∈ dets.filterMap Detection.track_id,
    ∃ tr', dictFind (applyDetections fn tracks dets) k = some tr' ∧
      tr'.last_update_frame = fn ∧ tr'.track_id = k := by
  induction dets with
  | nil =>
    intro tracks hwf k hk
    simp at hk
  | cons det dets ih =>
    intro tracks hwf k hk
    rw [show applyDetections fn tracks (det :: dets) =
        applyDetections fn (applyDetStep fn tracks det) dets from rfl]
    have hwf1 : ∀ p ∈ applyDetStep fn tracks det, p.2.track_id = p.1 :=
      applyDetStep_wf hwf
    rcases hdt : det.track_id with _ | tid
    · rw [List.filterMap_cons, hdt] at hk
      exact ih hwf1 k hk
    · rw [List.filterMap_cons, hdt] at hk
      rcases List.mem_cons.mp hk with rfl | hk2
      · have hstep : ∃ ntr, dictFind (applyDetStep fn tracks det) k = some ntr ∧
            ntr.last_update_frame = fn ∧ ntr.track_id = k := by
          rcases hf : dictFind tracks k with _ | tr
          · refine ⟨Track.init k det.class_name det.bbox fn, ?_, rfl, rfl⟩
            simp only [applyDetStep, hdt, hf]
            exact dictFind_set_self tracks k _
          · refine ⟨tr.update det.bbox fn, ?_, rfl, hwf _ (dictFind_mem hf)⟩
            simp only [applyDetStep, hdt, hf]
            exact dictFind_set_self tracks k _
        rcases hstep with ⟨ntr, h1, h2, h3⟩
        exact applyDetections_preserve_fresh h1 h2 h3
      · exact ih hwf1 k hk2

/-! ## Lemmas on the snapshot phase of the tracker update -/

/-- Refreshing direction and speed changes neither identity nor age. -/
theorem snapTrack_track_id (fps ppm : ℚ) (tr : Track) :
    (snapTrack fps ppm tr).track_id = tr.track_id := rfl

/-- Refreshing direction and speed leaves `last_update_frame` alone. -/
theorem snapTrack_last (fps ppm : ℚ) (tr : Track) :
    (snapTrack fps ppm tr).last_update_frame = tr.last_update_frame := rfl

/-- The snapshot fold ignores its output accumulator except to append. -/
theorem collect_foldl_out (fps ppm : ℚ) :
    ∀ (ids : List ℤ) (tr : List (ℤ × Track)) (out : List TrackDict),
    ids.foldl (collectStep fps ppm) (tr, out) =
      ((ids.foldl (collectStep fps ppm) (tr, [])).1,
        out ++ (ids.foldl (collectStep fps ppm) (tr, [])).2) := by
  intro ids
  induction ids with
  | nil =>
    intro tr out
    simp
  | cons tid ids ih =>
    intro tr out
    rw [List.foldl_cons, List.foldl_cons]
    rcases hf : dictFind tr tid with _ | tr0
    · rw [show collectStep fps ppm (tr, out) tid = (tr, out) from by
        simp [collectStep, hf]]
      rw [show collectStep fps ppm (tr, ([] : List TrackDict)) tid =
          (tr, ([] : List TrackDict)) from by simp [collectStep, hf]]
      exact ih tr out
    · rw [show collectStep fps ppm (tr, out) tid =
          (dictSet tr tid (snapTrack fps ppm tr0),
            out ++ [(snapTrack fps ppm tr0).to_dict]) from by
        simp [collectStep, hf]]
      rw [show collectStep fps ppm (tr, ([] : List TrackDict)) tid =
          (dictSet tr tid (snapTrack fps ppm tr0),
            [(snapTrack fps ppm tr0).to_dict]) from by
        simp [collectStep, hf]]
      rw [ih _ (out ++ [(snapTrack fps ppm tr0).to_dict]),
        ih _ [(snapTrack fps ppm tr0).to_dict]]
      simp

/-- The snapshot fold never touches the entry of an id outside its list. -/
theorem collect_find_not_mem (fps ppm : ℚ) :
    ∀ (ids : List ℤ) (acc : List (ℤ × Track) × List TrackDict) (k : ℤ),
    k ∉ ids →
    dictFind (ids.foldl (collectStep fps ppm) acc).1 k = dictFind acc.1 k := by
  intro ids
  induction ids with
  | nil =>
    intro acc k h
    rfl
  | cons tid ids ih =>
    intro acc k h
    have hk : k ≠ tid := fun he => h (he ▸ List.mem_cons_self tid ids)
    have h2 : k ∉ ids := fun he => h (List.mem_cons_of_mem tid he)
    rw [List.foldl_cons, ih _ k h2]
    rcases hf : dictFind acc.1 tid with _ | tr0
    · rw [show collectStep fps ppm acc tid = acc from by simp [collectStep, hf]]
    · have hc : (collectStep fps ppm acc tid).1 =
          dictSet acc.1 tid (snapTrack fps ppm tr0) := by
        simp [collectStep, hf]
      rw [hc]
      exact dictFind_set_ne acc.1 tid k _ hk

/-- A pointwise entry property that survives the snapshot refresh survives
the whole snapshot fold. -/
theorem collect_preserve_prop (fps ppm : ℚ) (P : ℤ × Track → Prop)
    (hsnap : ∀ k tr, P (k, tr) → P (k, snapTrack fps ppm tr)) :
    ∀ (ids : List ℤ) (acc : List (ℤ × Track) × List TrackDict),
    (∀ p ∈ acc.1, P p) →
    ∀ p ∈ (ids.foldl (collectStep fps ppm) acc).1, P p := by
  intro ids
  induction ids with
  | nil =>
    intro acc hall
    exact hall
  | cons tid ids ih =>
    intro acc hall
    rw [List.foldl_cons]
    apply ih
    rcases hf : dictFind acc.1 tid with _ | tr0
    · have hc : (collectStep fps ppm acc tid).1 = acc.1 := by
        simp [collectStep, hf]
      rw [hc]
      exact hall
    · have hc : (collectStep fps ppm acc tid).1 =
          dictSet acc.1 tid (snapTrack fps ppm tr0) := by
        simp [collectStep, hf]
      rw [hc]
      exact forall_mem_dictSet hall (hsnap tid tr0 (hall _ (dictFind_mem hf)))

/-- Every id of the snapshot list is still present in the tracks dict after
the snapshot fold, provided it was present before. -/
theorem collect_ids_found (fps ppm : ℚ) :
    ∀ (ids : List ℤ), ids.Nodup →
    ∀ (tracks : List (ℤ × Track)),
    (∀ t ∈ ids, ∃ tr, dictFind tracks t = some tr) →
    ∀ t ∈ ids,
    ∃ tr', dictFind (collectSnapshots fps ppm ids tracks).1 t = some tr' := by
  intro ids
  induction ids with
  | nil =>
    intro _ tracks _ t ht
    simp at ht
  | cons tid ids ih =>
    intro hnd tracks hex t ht
    have htid : tid ∉ ids := (List.nodup_cons.mp hnd).1
    have hnd2 : ids.Nodup := (List.nodup_cons.mp hnd).2
    rcases hex tid (List.mem_cons_self tid ids) with ⟨tr0, hf⟩
    have hstep : collectStep fps ppm (tracks, ([] : List TrackDict)) tid =
        (dictSet tracks tid (snapTrack fps ppm tr0),
          [(snapTrack fps ppm tr0).to_dict]) := by
      simp [collectStep, hf]
    unfold collectSnapshots
    rw [List.foldl_cons, hstep, collect_foldl_out]
    rcases List.mem_cons.mp ht with rfl | ht2
    · refine ⟨snapTrack fps ppm tr0, ?_⟩
      have hun : dictFind ((ids.foldl (collectStep fps ppm)
          (dictSet tracks t (snapTrack fps ppm tr0),
            ([] : List TrackDict))).1) t =
          dictFind (dictSet tracks t (snapTrack fps ppm tr0)) t :=
        collect_find_not_mem fps ppm ids _ t htid
      rw [hun]
      exact dictFind_set_self tracks t _
    · have hex2 : ∀ u ∈ ids, ∃ tr,
          dictFind (dictSet tracks tid (snapTrack fps ppm tr0)) u = some tr := by
        intro u hu
        rcases hex u (List.mem_cons_of_mem tid hu) with ⟨tru, hfu⟩
        refine ⟨tru, ?_⟩
        rw [dictFind_set_ne tracks tid u _ (fun he => htid (he ▸ hu))]
        exact hfu
      rcases ih hnd2 _ hex2 t ht2 with ⟨tr', h'⟩
      exact ⟨tr', h'⟩

/-- The snapshot list returned by the snapshot fold carries exactly the fed
ids, in order. -/
theorem collect_out_map (fps ppm : ℚ) :
    ∀ (ids : List ℤ), ids.Nodup →
    ∀ (tracks : List (ℤ × Track)),
    (∀ p ∈ tracks, p.2.track_id = p.1) →
    (∀ t ∈ ids, ∃ tr, dictFind tracks t = some tr) →
    (collectSnapshots fps ppm ids tracks).2.map TrackDict.track_id = ids := by
  intro ids
  induction ids with
  | nil =>
    intro _ tracks _ _
    rfl
  | cons tid ids ih =>
    intro hnd tracks hwf hex
    have htid : tid ∉ ids := (List.nodup_cons.mp hnd).1
    have hnd2 : ids.Nodup := (List.nodup_cons.mp hnd).2
    rcases hex tid (List.mem_cons_self tid ids) with ⟨tr0, hf⟩
    have hstep : collectStep fps ppm (tracks, ([] : List TrackDict)) tid =
        (dictSet tracks tid (snapTrack fps ppm tr0),
          [(snapTrack fps ppm tr0).to_dict]) := by
      simp [collectStep, hf]
    unfold collectSnapshots
    rw [List.foldl_cons, hstep, collect_foldl_out]
    have hsnapid : (snapTrack fps ppm tr0).to_dict.track_id = tid := by
      have htr : tr0.track_id = tid := hwf _ (dictFind_mem hf)
      exact htr
    have hwf1 : ∀ p ∈ dictSet tracks tid (snapTrack fps ppm tr0),
        p.2.track_id = p.1 := by
      refine forall_mem_dictSet hwf ?_
      have htr : tr0.track_id = tid := hwf _ (dictFind_mem hf)
      exact htr
    have hex1 : ∀ u ∈ ids, ∃ tr,
        dictFind (dictSet tracks tid (snapTrack fps ppm tr0)) u = some tr := by
      intro u hu
      rcases hex u (List.mem_cons_of_mem tid hu) with ⟨tru, hfu⟩
      refine ⟨tru, ?_⟩
      rw [dictFind_set_ne tracks tid u _ (fun he => htid (he ▸ hu))]
      exact hfu
    have hrest := ih hnd2 _ hwf1 hex1
    unfold collectSnapshots at hrest
    simp only [List.map_append, List.map_cons, List.map_nil] at *
    rw [hrest, hsnapid]
    rfl

/-! ## Claim C4 — stale tracks are absent after update -/

/-- C4: after any `update` call on any tracker state, no surviving track is
older than `max_age` (= 30 for every tracker the code builds) relative to
the new frame number — whatever detections (including none) arrived and
whatever other tracks were updated; and a pre-existing track matched by no
detection of this call whose age exceeds `max_age` is absent from the
internal track map after the call. -/
theorem C4_stale_tracks_absent_after_update (st : VehicleTracker)
    (dets : List Detection) :
    (∀ i T, dictFind (st.update dets).1.tracks i = some T →
      st.frame_number + 1 - T.last_update_frame ≤ st.max_age) ∧
    (keysNodup st.tracks →
      ∀ i T, dictFind st.tracks i = some T →
      (∀ d ∈ dets, d.track_id ≠ some i) →
      st.frame_number + 1 - T.last_update_frame > st.max_age →
      dictFind (st.update dets).1.tracks i = none) := by
  constructor
  · intro i T hfind
    have hfind' : dictFind ((dets.filterMap Detection.track_id).dedup.foldl
        (collectStep st.fps st.pixels_per_meter)
        (removeStale (st.frame_number + 1) st.max_age
          (applyDetections (st.frame_number + 1) st.tracks dets),
          ([] : List TrackDict))).1 i = some T := hfind
    have hmem := dictFind_mem hfind'
    refine collect_preserve_prop st.fps st.pixels_per_meter
      (fun p => st.frame_number + 1 - p.2.last_update_frame ≤ st.max_age)
      (fun k tr h => ?_) _ _ ?_ _ hmem
    · dsimp only at h ⊢
      rw [snapTrack_last]
      exact h
    · intro p hp
      exact removeStale_bound p hp
  · intro hkeys i T hfind hno hstale
    have h1 : dictFind (applyDetections (st.frame_number + 1) st.tracks dets)
        i = some T := by
      rw [applyDetections_find_ne hno]
      exact hfind
    have hk1 : keysNodup (applyDetections (st.frame_number + 1) st.tracks dets) :=
      applyDetections_keysNodup hkeys
    have h2 : dictFind (removeStale (st.frame_number + 1) st.max_age
        (applyDetections (st.frame_number + 1) st.tracks dets)) i = none := by
      refine dictFind_filter_none hk1 h1 ?_
      exact decide_eq_false (not_not_intro hstale)
    have hnotin : i ∉ (dets.filterMap Detection.track_id).dedup := by
      intro hi
      rw [List.mem_dedup] at hi
      rcases List.mem_filterMap.mp hi with ⟨d, hd, hdi⟩
      exact hno d hd hdi
    have h3 := collect_find_not_mem st.fps st.pixels_per_meter
      ((dets.filterMap Detection.track_id).dedup)
      (removeStale (st.frame_number + 1) st.max_age
        (applyDetections (st.frame_number + 1) st.tracks dets),
        ([] : List TrackDict)) i hnotin
    exact h3.trans h2

/-- Witness for C4 at concrete inputs: a track updated at frame 50 survives
an empty frame 51 within the age bound, while a track last updated at frame
40 is gone after an empty frame 81. -/
theorem C4_stale_tracks_absent_after_update_witness :
    stFresh.frame_number + 1 -
      (Track.init 1 "car" [0, 0, 10, 10] 50).last_update_frame ≤
        stFresh.max_age ∧
    dictFind (stStale.update []).1.tracks 2 = none := by
  constructor
  · exact (C4_stale_tracks_absent_after_update stFresh []).1 1 _ rfl
  · exact (C4_stale_tracks_absent_after_update stStale []).2
      (by unfold keysNodup; decide) 2 _ rfl (by simp) (by decide)

/-! ## Claim C6 — returned snapshots match this call's detections -/

/-- C6: for every well-formed tracker state (one dict slot per key, each
stored track carrying its key as its `track_id`) and every detection list,
`update` returns exactly one snapshot per distinct non-null `track_id` of
this call's detections (each id appearing exactly once); every returned
snapshot's id is live in the tracker map after the call, so no snapshot
belongs to a `track_id` aged out before or during the call; and a track that
received no detection this call is neither returned nor deleted unless aged
out — it survives unchanged within the age bound and is gone beyond it. -/
theorem C6_snapshots_match_detections (st : VehicleTracker)
    (dets : List Detection) (hkeys : keysNodup st.tracks)
    (hwf : ∀ p ∈ st.tracks, p.2.track_id = p.1) :
    ((st.update dets).2.map TrackDict.track_id =
      (dets.filterMap Detection.track_id).dedup) ∧
    (∀ e ∈ (st.update dets).2,
      ∃ tr, dictFind (st.update dets).1.tracks e.track_id = some tr) ∧
    (∀ i T, dictFind st.tracks i = some T →
      (∀ d ∈ dets, d.track_id ≠ some i) →
      (st.frame_number + 1 - T.last_update_frame ≤ st.max_age →
        dictFind (st.update dets).1.tracks i = some T) ∧
      (st.frame_number + 1 - T.last_update_frame > st.max_age →
        dictFind (st.update dets).1.tracks i = none)) := by
  have hwf1 : ∀ p ∈ applyDetections (st.frame_number + 1) st.tracks dets,
      p.2.track_id = p.1 := applyDetections_wf hwf
  have hk1 : keysNodup (applyDetections (st.frame_number + 1) st.tracks dets) :=
    applyDetections_keysNodup hkeys
  have hwf2 : ∀ p ∈ removeStale (st.frame_number + 1) st.max_age
      (applyDetections (st.frame_number + 1) st.tracks dets),
      p.2.track_id = p.1 := fun p hp => hwf1 p (List.mem_filter.mp hp).1
  have hex2 : ∀ t ∈ (dets.filterMap Detection.track_id).dedup,
      ∃ tr, dictFind (removeStale (st.frame_number + 1) st.max_age
        (applyDetections (st.frame_number + 1) st.tracks dets)) t = some tr := by
    intro t ht
    rw [List.mem_dedup] at ht
    rcases applyDetections_ids_fresh hwf t ht with ⟨tr', h1, h2, h3⟩
    refine ⟨tr', dictFind_filter h1 ?_⟩
    rw [h2]
    exact decide_eq_true (by omega)
  have hmap : ((dets.filterMap Detection.track_id).dedup.foldl
      (collectStep st.fps st.pixels_per_meter)
      (removeStale (st.frame_number + 1) st.max_age
        (applyDetections (st.frame_number + 1) st.tracks dets),
        ([] : List TrackDict))).2.map TrackDict.track_id =
      (dets.filterMap Detection.track_id).dedup :=
    collect_out_map st.fps st.pixels_per_meter _ (List.nodup_dedup _) _
      hwf2 hex2
  refine ⟨hmap, ?_, ?_⟩
  · intro e he
    have hid : e.track_id ∈ (dets.filterMap Detection.track_id).dedup := by
      rw [← hmap]
      exact List.mem_map_of_mem TrackDict.track_id he
    exact collect_ids_found st.fps st.pixels_per_meter _
      (List.nodup_dedup _) _ hex2 e.track_id hid
  · intro i T hfind hno
    have h1 : dictFind (applyDetections (st.frame_number + 1) st.tracks dets)
        i = some T := by
      rw [applyDetections_find_ne hno]
      exact hfind
    have hnotin : i ∉ (dets.filterMap Detection.track_id).dedup := by
      intro hi
      rw [List.mem_dedup] at hi
      rcases List.mem_filterMap.mp hi with ⟨d, hd, hdi⟩
      exact hno d hd hdi
    have huntouched := collect_find_not_mem st.fps st.pixels_per_meter
      ((dets.filterMap Detection.track_id).dedup)
      (removeStale (st.frame_number + 1) st.max_age
        (applyDetections (st.frame_number + 1) st.tracks dets),
        ([] : List TrackDict)) i hnotin
    constructor
    · intro hage
      have h2 : dictFind (removeStale (st.frame_number + 1) st.max_age
          (applyDetections (st.frame_number + 1) st.tracks dets)) i = some T :=
        dictFind_filter h1 (decide_eq_true (by dsimp only; omega))
      exact huntouched.trans h2
    · intro hstale
      have h2 : dictFind (removeStale (st.frame_number + 1) st.max_age
          (applyDetections (st.frame_number + 1) st.tracks dets)) i = none :=
        dictFind_filter_none hk1 h1 (decide_eq_false (not_not_intro hstale))
      exact huntouched.trans h2

/-- Witness for C6 at a concrete input: feeding one car detection with
track id 1 to a fresh tracker returns exactly one snapshot, for id 1. -/
theorem C6_snapshots_match_detections_witness :
    ((VehicleTracker.init 25 50).update [detCar1]).2.map TrackDict.track_id =
      [(1 : ℤ)] := by
  have h := (C6_snapshots_match_detections (VehicleTracker.init 25 50) [detCar1]
    (by unfold keysNodup; decide) (by simp [VehicleTracker.init])).1
  rw [h]
  decide
